import Mathlib

/-!
Verification development for the skill repository: a shallow embedding of
the markup extractor (util), the resource model and providers
(schema/resources), the Skill facade (schema), the generic and remote
invocation engines, and the reflective instance constructor (util).
Each definition mirrors the corresponding Go function; side effects
(mutation, HTTP, JSON codecs, the reflect package) are made explicit as
state passing or as function parameters standing for the library calls.
-/

namespace Util

/-- Mirror of util.XMLTag: a parsed markup tag, kind plus trimmed content. -/
structure XMLTag where
  TagName : String
  Content : String
deriving DecidableEq, Repr

/-- Whitespace predicate used by Go strings.TrimSpace (unicode.IsSpace),
restricted to the Latin-1 range, which covers every character class the
repository's bodies use: tab, newline, vertical tab, form feed, carriage
return, space, next line, no-break space. -/
def isGoSpace (c : Char) : Bool :=
  c = ' ' || c = '\t' || c = '\n' || c = '\x0b' || c = '\x0c' || c = '\r' ||
  c = '\x85' || c = '\xa0'

/-- strings.TrimSpace on a character list: drop leading and trailing space. -/
def trimChars (l : List Char) : List Char :=
  ((l.dropWhile isGoSpace).reverse.dropWhile isGoSpace).reverse

/-- strings.TrimSpace. -/
def trimStr (s : String) : String :=
  String.mk (trimChars s.toList)

/-- Drop an expected literal from the front of a character list; none if the
list does not start with that literal. Helper used to mirror the regexp
literal pieces of the pattern in util.ParseXMLTags. -/
def dropLit : List Char → List Char → Option (List Char)
  | [], cs => some cs
  | _ :: _, [] => none
  | p :: ps, c :: cs => if c = p then dropLit ps cs else none

/-- The three recognized tag kinds of the pattern
(script | reference | asset), in the alternation order of the regexp. -/
def tagKinds : List String := ["script", "reference", "asset"]

/-- Match one open marker at the front of the input: the regexp piece
written as an angle bracket, one of the three kinds, a closing angle
bracket. Returns the kind and the remaining input. -/
def openKindAt (cs : List Char) : Option (String × List Char) :=
  match dropLit "<script>".toList cs with
  | some r => some ("script", r)
  | none =>
    match dropLit "<reference>".toList cs with
    | some r => some ("reference", r)
    | none =>
      match dropLit "<asset>".toList cs with
      | some r => some ("asset", r)
      | none => none

/-- Match one close marker at the front of the input. The regexp's third
group is an independent alternation over the three kinds, so the close
marker's kind is NOT required to equal the open marker's kind. -/
def closeKindAt (cs : List Char) : Option (List Char) :=
  match dropLit "</script>".toList cs with
  | some r => some r
  | none =>
    match dropLit "</reference>".toList cs with
    | some r => some r
    | none =>
      match dropLit "</asset>".toList cs with
      | some r => some r
      | none => none

/-- Try to match the whole regexp of util.ParseXMLTags at the current
position: an open marker, then a nonempty run of characters other than an
opening angle bracket (the content group), then a close marker of any of
the three kinds. Mirrors Go regexp leftmost matching at a fixed start:
the content group cannot cross an opening angle bracket, so its only
possible extent is the run up to the next one. -/
def matchTagAt (cs : List Char) : Option (XMLTag × List Char) :=
  match openKindAt cs with
  | none => none
  | some (k, r1) =>
    let content := r1.takeWhile (fun c => c ≠ '<')
    let r2 := r1.dropWhile (fun c => c ≠ '<')
    if content.isEmpty then none
    else
      match closeKindAt r2 with
      | none => none
      | some rest => some (⟨k, String.mk (trimChars content)⟩, rest)

/-- Scan for successive non-overlapping leftmost matches, as
regexp FindAllStringSubmatch does: try to match at each position, emit the
tag and continue after the match on success, advance one character on
failure. Fuel-driven so that it is structural; fuel equal to the input
length is always enough because a match consumes at least one character. -/
def parseTagsAux : Nat → List Char → List XMLTag
  | 0, _ => []
  | _ + 1, [] => []
  | fuel + 1, c :: cs =>
    match matchTagAt (c :: cs) with
    | some (t, rest) => t :: parseTagsAux fuel rest
    | none => parseTagsAux fuel cs

/-- Mirror of util.ParseXMLTags: find all tags in the body. An empty body
and a body with no matches both yield the empty list (Go returns nil in
both cases). -/
def ParseXMLTags (body : String) : List XMLTag :=
  parseTagsAux body.toList.length body.toList

/-- The same scan on the underlying character list, with its canonical
fuel: ParseXMLTags body is parseChars body.toList by definition. -/
def parseChars (cs : List Char) : List XMLTag :=
  parseTagsAux cs.length cs

/-- Mirror of util.ExtractScriptNames: the script-kind contents, in order.
Go returns nil when there are no script tags; the model returns the empty
list, Go nil slices and empty slices both map to it. -/
def ExtractScriptNames (body : String) : List String :=
  ((ParseXMLTags body).filter (fun t => t.TagName = "script")).map (·.Content)

/-- Mirror of util.ExtractReferenceNames. -/
def ExtractReferenceNames (body : String) : List String :=
  ((ParseXMLTags body).filter (fun t => t.TagName = "reference")).map (·.Content)

/-- Mirror of util.ExtractAssetNames. -/
def ExtractAssetNames (body : String) : List String :=
  ((ParseXMLTags body).filter (fun t => t.TagName = "asset")).map (·.Content)

/-- Mirror of util.HasXMLTags. -/
def HasXMLTags (body : String) : Bool :=
  (ParseXMLTags body).length > 0

end Util

namespace Resources

/-- Mirror of resources.Script, the script interface: a name plus the
Run contract taking a JSON argument string to a result string or an
error. Every implementation in the repository (EasyScript, RemoteScript)
returns the empty result string together with its error, so Run is
modelled as an exclusive sum; errors are their Go message strings.
The usage string of the interface plays no part in any claim and is
omitted. -/
structure Script where
  name : String
  run : String → Except String String

/-- Mirror of resources.Reference. -/
structure Reference where
  Name : String
  Body : String
deriving DecidableEq, Repr

/-- Mirror of resources.Asset: named byte payload with an extension tag. -/
structure Asset where
  Name : String
  Bytes : List Nat
  Ext : String
deriving DecidableEq, Repr

/-- Mirror of the resources.ResourceProvider interface, as a record of the
six operations. A value of this type stands for one stateless provider
(InlineProvider is stateless; the stateful decorators carry their state in
their own structures below and produce the follow-up state explicitly). -/
structure ResourceProvider where
  getScript : String → Except String Script
  getReference : String → Except String String
  getAsset : String → Except String Asset
  listScripts : Except String (List String)
  listReferences : Except String (List String)
  listAssets : Except String (List String)

/-- Mirror of resources.InlineProvider: in-memory collections. -/
structure InlineProvider where
  Scripts : List Script
  References : List Reference
  Assets : List Asset

/-- InlineProvider.GetScript: linear scan by name, not-found error
carrying the key. -/
def InlineProvider.getScript (p : InlineProvider) (name : String) :
    Except String Script :=
  match p.Scripts.find? (fun sc => sc.name = name) with
  | some sc => .ok sc
  | none => .error ("script not found: " ++ name)

/-- InlineProvider.GetReference. -/
def InlineProvider.getReference (p : InlineProvider) (name : String) :
    Except String String :=
  match p.References.find? (fun r => r.Name = name) with
  | some r => .ok r.Body
  | none => .error ("reference not found: " ++ name)

/-- InlineProvider.GetAsset. -/
def InlineProvider.getAsset (p : InlineProvider) (name : String) :
    Except String Asset :=
  match p.Assets.find? (fun a => a.Name = name) with
  | some a => .ok a
  | none => .error ("asset not found: " ++ name)

/-- Package an InlineProvider behind the provider interface (the Go
interface dispatch). List operations return the names in insertion
order and never fail. -/
def InlineProvider.toProvider (p : InlineProvider) : ResourceProvider where
  getScript := p.getScript
  getReference := p.getReference
  getAsset := p.getAsset
  listScripts := .ok (p.Scripts.map (·.name))
  listReferences := .ok (p.References.map (·.Name))
  listAssets := .ok (p.Assets.map (·.Name))

/-- Mirror of resources.CompositeProvider: an ordered delegate list. -/
structure CompositeProvider where
  providers : List ResourceProvider

/-- The shared loop shape of the three composite lookup methods: walk the
delegates in order carrying the last error seen; first success wins;
when the list is exhausted return the last error, or the given
not-found message if no delegate was consulted. Each Go method is the
instantiation below with its own projection and message. -/
def compositeLookup (get : ResourceProvider → String → Except String α)
    (notFoundMsg : String → String) :
    List ResourceProvider → Option String → String → Except String α
  | [], none, name => .error (notFoundMsg name)
  | [], some e, _ => .error e
  | p :: ps, _, name =>
    match get p name with
    | .ok v => .ok v
    | .error e => compositeLookup get notFoundMsg ps (some e) name

/-- CompositeProvider.GetScript. -/
def CompositeProvider.getScript (c : CompositeProvider) (name : String) :
    Except String Script :=
  compositeLookup (·.getScript) (fun n => "script not found: " ++ n)
    c.providers none name

/-- CompositeProvider.GetReference. -/
def CompositeProvider.getReference (c : CompositeProvider) (name : String) :
    Except String String :=
  compositeLookup (·.getReference) (fun n => "reference not found: " ++ n)
    c.providers none name

/-- CompositeProvider.GetAsset. -/
def CompositeProvider.getAsset (c : CompositeProvider) (name : String) :
    Except String Asset :=
  compositeLookup (·.getAsset) (fun n => "asset not found: " ++ n)
    c.providers none name

end Resources

namespace Resources

/-- Mirror of resources.CachingProvider: a delegate plus three per-kind
name-to-value caches. Go maps become association lists whose keys stay
unique because an entry is only ever added on a miss. -/
structure CachingProvider where
  provider : ResourceProvider
  scriptCache : List (String × Script)
  refCache : List (String × String)
  assetCache : List (String × Asset)

/-- NewCachingProvider: empty caches. -/
def NewCachingProvider (p : ResourceProvider) : CachingProvider :=
  ⟨p, [], [], []⟩

/-- The shared body of the three caching lookup methods: consult the cache
first; on a miss delegate, and only on success store the value. The
returned Bool records whether the delegate was invoked (the call-count
instrumentation of the provider tests). Each Go method is the
instantiation below. -/
def cachedLookup (cache : List (String × α))
    (deleg : String → Except String α) (name : String) :
    Except String α × List (String × α) × Bool :=
  match cache.lookup name with
  | some v => (.ok v, cache, false)
  | none =>
    match deleg name with
    | .error e => (.error e, cache, true)
    | .ok v => (.ok v, (name, v) :: cache, true)

/-- CachingProvider.GetScript. -/
def CachingProvider.getScript (c : CachingProvider) (name : String) :
    Except String Script × CachingProvider × Bool :=
  match cachedLookup c.scriptCache c.provider.getScript name with
  | (r, cache, invoked) => (r, { c with scriptCache := cache }, invoked)

/-- CachingProvider.GetReference. -/
def CachingProvider.getReference (c : CachingProvider) (name : String) :
    Except String String × CachingProvider × Bool :=
  match cachedLookup c.refCache c.provider.getReference name with
  | (r, cache, invoked) => (r, { c with refCache := cache }, invoked)

/-- CachingProvider.GetAsset. -/
def CachingProvider.getAsset (c : CachingProvider) (name : String) :
    Except String Asset × CachingProvider × Bool :=
  match cachedLookup c.assetCache c.provider.getAsset name with
  | (r, cache, invoked) => (r, { c with assetCache := cache }, invoked)

/-- CachingProvider.ListScripts: always delegates, touches no cache. -/
def CachingProvider.listScripts (c : CachingProvider) :
    Except String (List String) × CachingProvider :=
  (c.provider.listScripts, c)

/-- CachingProvider.ListReferences: always delegates, touches no cache. -/
def CachingProvider.listReferences (c : CachingProvider) :
    Except String (List String) × CachingProvider :=
  (c.provider.listReferences, c)

/-- CachingProvider.ListAssets: always delegates, touches no cache. -/
def CachingProvider.listAssets (c : CachingProvider) :
    Except String (List String) × CachingProvider :=
  (c.provider.listAssets, c)

/-- CachingProvider.ClearCache. -/
def CachingProvider.clearCache (c : CachingProvider) : CachingProvider :=
  { c with scriptCache := [], refCache := [], assetCache := [] }

/-- One clear-free operation on a caching provider, for stating the
between-clears cache behavior over operation sequences. -/
inductive CacheOp where
  | gS (name : String)
  | gR (name : String)
  | gA (name : String)
  | lS
  | lR
  | lA
deriving DecidableEq, Repr

/-- Run one operation; report the new state and, when the operation
delegated a point lookup, the kind tag and key of that delegate call. -/
def CachingProvider.step (c : CachingProvider) :
    CacheOp → CachingProvider × Option CacheOp
  | .gS n =>
    match c.getScript n with
    | (_, c2, invoked) => (c2, if invoked then some (.gS n) else none)
  | .gR n =>
    match c.getReference n with
    | (_, c2, invoked) => (c2, if invoked then some (.gR n) else none)
  | .gA n =>
    match c.getAsset n with
    | (_, c2, invoked) => (c2, if invoked then some (.gA n) else none)
  | .lS => ((c.listScripts).2, none)
  | .lR => ((c.listReferences).2, none)
  | .lA => ((c.listAssets).2, none)

/-- Run a sequence of clear-free operations, accumulating the delegate
point-lookup calls that were made, in order. -/
def CachingProvider.runOps (c : CachingProvider) :
    List CacheOp → CachingProvider × List CacheOp
  | [] => (c, [])
  | op :: ops =>
    match c.step op with
    | (c2, call) =>
      match c2.runOps ops with
      | (c3, calls) => (c3, (call.toList) ++ calls)

/-- Mirror of resources.LazyLoadingProvider. The Go loader is a closure
that may behave differently on successive invocations, so it is modelled
indexed by its invocation count; the calls field counts invocations made
so far (the load-count instrumentation of the provider tests). -/
structure LazyLoadingProvider where
  loader : Nat → Except String ResourceProvider
  provider : Option ResourceProvider
  inited : Bool
  calls : Nat

/-- NewLazyLoadingProvider: nothing loaded, no invocations. -/
def NewLazyLoadingProvider (loader : Nat → Except String ResourceProvider) :
    LazyLoadingProvider :=
  ⟨loader, none, false, 0⟩

/-- LazyLoadingProvider.init: no-op once marked as done; otherwise invoke
the loader, and on success store the provider and set the mark. A loader
failure is wrapped with the fixed message and leaves the mark unset
(only the invocation count moves). -/
def LazyLoadingProvider.init (p : LazyLoadingProvider) :
    Except String Unit × LazyLoadingProvider :=
  if p.inited then (.ok (), p)
  else
    match p.loader p.calls with
    | .error e =>
      (.error ("failed to load provider: " ++ e), { p with calls := p.calls + 1 })
    | .ok pr =>
      (.ok (), { p with provider := some pr, inited := true, calls := p.calls + 1 })

/-- LazyLoadingProvider.GetScript: ensure loaded, then delegate. When the
mark is set but no provider is stored (unreachable from a fresh state) the
Go code would dereference nil; the model reports it as an error value. -/
def LazyLoadingProvider.getScript (p : LazyLoadingProvider) (name : String) :
    Except String Script × LazyLoadingProvider :=
  match p.init with
  | (.error e, p2) => (.error e, p2)
  | (.ok _, p2) =>
    match p2.provider with
    | some pr => (pr.getScript name, p2)
    | none => (.error "nil provider", p2)

/-- LazyLoadingProvider.GetReference. -/
def LazyLoadingProvider.getReference (p : LazyLoadingProvider) (name : String) :
    Except String String × LazyLoadingProvider :=
  match p.init with
  | (.error e, p2) => (.error e, p2)
  | (.ok _, p2) =>
    match p2.provider with
    | some pr => (pr.getReference name, p2)
    | none => (.error "nil provider", p2)

/-- LazyLoadingProvider.GetAsset. -/
def LazyLoadingProvider.getAsset (p : LazyLoadingProvider) (name : String) :
    Except String Asset × LazyLoadingProvider :=
  match p.init with
  | (.error e, p2) => (.error e, p2)
  | (.ok _, p2) =>
    match p2.provider with
    | some pr => (pr.getAsset name, p2)
    | none => (.error "nil provider", p2)

/-- LazyLoadingProvider.ListScripts. -/
def LazyLoadingProvider.listScripts (p : LazyLoadingProvider) :
    Except String (List String) × LazyLoadingProvider :=
  match p.init with
  | (.error e, p2) => (.error e, p2)
  | (.ok _, p2) =>
    match p2.provider with
    | some pr => (pr.listScripts, p2)
    | none => (.error "nil provider", p2)

/-- LazyLoadingProvider.ListReferences. -/
def LazyLoadingProvider.listReferences (p : LazyLoadingProvider) :
    Except String (List String) × LazyLoadingProvider :=
  match p.init with
  | (.error e, p2) => (.error e, p2)
  | (.ok _, p2) =>
    match p2.provider with
    | some pr => (pr.listReferences, p2)
    | none => (.error "nil provider", p2)

/-- LazyLoadingProvider.ListAssets. -/
def LazyLoadingProvider.listAssets (p : LazyLoadingProvider) :
    Except String (List String) × LazyLoadingProvider :=
  match p.init with
  | (.error e, p2) => (.error e, p2)
  | (.ok _, p2) =>
    match p2.provider with
    | some pr => (pr.listAssets, p2)
    | none => (.error "nil provider", p2)

/-- One sequential access of any of the six operation kinds. -/
inductive LazyOp where
  | gS (name : String)
  | gR (name : String)
  | gA (name : String)
  | lS
  | lR
  | lA
deriving DecidableEq, Repr

/-- Carry out one access, keeping only the follow-up state. -/
def LazyLoadingProvider.step (p : LazyLoadingProvider) :
    LazyOp → LazyLoadingProvider
  | .gS n => (p.getScript n).2
  | .gR n => (p.getReference n).2
  | .gA n => (p.getAsset n).2
  | .lS => (p.listScripts).2
  | .lR => (p.listReferences).2
  | .lA => (p.listAssets).2

/-- Carry out a sequence of sequential accesses. -/
def LazyLoadingProvider.runOps (p : LazyLoadingProvider) :
    List LazyOp → LazyLoadingProvider
  | [] => p
  | op :: ops => (p.step op).runOps ops

end Resources

namespace Schema

open Resources Util

/-- Mirror of schema.SkillMetadata. -/
structure SkillMetadata where
  Name : String
  Description : String
deriving DecidableEq, Repr

/-- Mirror of schema.Skill: identity, body, the three owned inline
resource lists, the attached provider (the field that core's
WithResourceProvider assigns and the schema tests populate), and the two
internal parse-cache fields. -/
structure Skill where
  Metadata : SkillMetadata
  Body : String
  Scripts : List Script
  References : List Reference
  Assets : List Asset
  Provider : Option ResourceProvider
  parsedTags : List XMLTag
  parsed : Bool

/-- A Go (result, err) pair from a Run outcome: the repository's script
implementations pair every error with the empty result string. -/
def goPair (r : Except String String) : String × Option String :=
  match r with
  | .ok v => (v, none)
  | .error e => ("", some e)

/-- The inline-list arm of Skill.UseScript, exactly the loop of
schema/skill.go: linear scan of the owned scripts by name, run the first
match, and fail with the script-not-found message naming the key when the
scan is exhausted. -/
def Skill.useInlineScript (s : Skill) (name args : String) :
    String × Option String :=
  match s.Scripts.find? (fun sc => sc.name = name) with
  | some sc => goPair (sc.run args)
  | none => ("", some ("script not found: " ++ name))

/-- Modelled from the spec: the provider-aware Skill.UseScript. The copy
of schema/skill.go in the snapshot has no Provider field, yet
core.WithResourceProvider assigns skill.Provider and the schema tests
construct Skills with a Provider and expect provider-first resolution, so
the current UseScript body is missing from the sources. Following the
spec's words: when a provider is attached, attempt provider lookup first
and on success run it; on provider not-found (or absent provider) fall
back to the inline procedure list; the inline arm is the loop that is in
schema/skill.go. -/
def Skill.UseScript (s : Skill) (name args : String) :
    String × Option String :=
  match s.Provider with
  | some p =>
    match p.getScript name with
    | .ok sc => goPair (sc.run args)
    | .error _ => s.useInlineScript name args
  | none => s.useInlineScript name args

/-- Mirror of Skill.ParseXMLTags: parse the body and fill the cache. -/
def Skill.ParseXMLTags (s : Skill) : Skill :=
  { s with parsedTags := Util.ParseXMLTags s.Body, parsed := true }

/-- Mirror of Skill.GetParsedTags: parse on first use, then serve the
cached tags. -/
def Skill.GetParsedTags (s : Skill) : List XMLTag × Skill :=
  if s.parsed then (s.parsedTags, s)
  else
    let s2 := s.ParseXMLTags
    (s2.parsedTags, s2)

/-- Mirror of Skill.GetScriptNames: always re-extract from the current
body. -/
def Skill.GetScriptNames (s : Skill) : List String :=
  Util.ExtractScriptNames s.Body

/-- Mirror of Skill.GetReferenceNames. -/
def Skill.GetReferenceNames (s : Skill) : List String :=
  Util.ExtractReferenceNames s.Body

/-- Mirror of Skill.GetAssetNames. -/
def Skill.GetAssetNames (s : Skill) : List String :=
  Util.ExtractAssetNames s.Body

/-- Mirror of schema.ScriptResult: one per-script outcome. -/
structure ScriptResult where
  ScriptName : String
  Result : String
  Error : Option String
deriving Repr

/-- Mirror of Skill.AutoExecute: extract the script names from the body;
when there are none (Go: the nil slice) fail with the fixed message;
otherwise run UseScript for every name in extraction order, recording
each outcome and never aborting on a per-script failure. -/
def Skill.AutoExecute (s : Skill) (args : String) :
    Except String (List ScriptResult) :=
  let scriptNames := s.GetScriptNames
  if scriptNames.isEmpty then .error "no scripts found in body"
  else
    .ok (scriptNames.map (fun n =>
      match s.UseScript n args with
      | (result, err) => ⟨n, result, err⟩))

end Schema

namespace Resources

/-- Mirror of EasyScript.Run with the JSON boundary made explicit: decode
stands for NewInstance plus json.Unmarshal into the fresh instance, fn for
the wrapped function, encode for json.Marshal of the output. Each failure
returns the empty result paired with the error; the function's own error
passes through unchanged. -/
def easyScriptRun (decode : String → Except String I)
    (fn : I → Except String O) (encode : O → Except String String)
    (args : String) : String × Option String :=
  match decode args with
  | .error e => ("", some e)
  | .ok input =>
    match fn input with
    | .error e => ("", some e)
    | .ok output =>
      match encode output with
      | .error e => ("", some e)
      | .ok result => (result, none)

/-- Mirror of resources.ScriptCallRequest, the remote wire request. -/
structure ScriptCallRequest where
  ScriptName : String
  Args : String
deriving DecidableEq, Repr

/-- Mirror of resources.ScriptCallResponse, the remote wire response. -/
structure ScriptCallResponse where
  Result : String
  Error : String
deriving DecidableEq, Repr

/-- The request framing of HTTPRemoteScriptClient.Call: the POST target
URL and the payload record that json.Marshal serializes. -/
def httpCallRequest (baseURL scriptName args : String) :
    String × ScriptCallRequest :=
  (baseURL ++ "/" ++ scriptName, ⟨scriptName, args⟩)

/-- The response handling of HTTPRemoteScriptClient.Call, lines 163-178
of remote_script.go. decodeResp stands for json.Unmarshal of the body
into a zero ScriptCallResponse: it yields the (possibly partially)
filled record and whether decoding succeeded; on a JSON syntax error Go
fills nothing, so the flag is false and the record zero. A status other
than 200 is rejected before the body is interpreted; on 200, a cleanly
decoded non-empty error field fails the call; otherwise a non-empty
decoded result field is the result, or else the raw body verbatim. -/
def httpCallResponse (decodeResp : String → ScriptCallResponse × Bool)
    (status : Nat) (body : String) : Except String String :=
  if status ≠ 200 then
    .error ("remote script returned error: status=" ++ toString status ++
      ", body=" ++ body)
  else
    let (callResp, decOk) := decodeResp body
    if decOk ∧ callResp.Error ≠ "" then .error callResp.Error
    else if callResp.Result ≠ "" then .ok callResp.Result
    else .ok body

end Resources

namespace Util

/-- The fragment of Go's reflect type kinds that util.NewInstance
distinguishes: mappings, slices, arrays, owned references, and everything
the default arm covers (base types stand in for it). -/
inductive GoType where
  | tmap (key value : GoType)
  | tslice (elem : GoType)
  | tarray (size : Nat) (elem : GoType)
  | tptr (elem : GoType)
  | tint
  | tstring
deriving DecidableEq, Repr

/-- Constructed Go values, at the granularity the claims need: non-nil
empty containers, allocated reference chains, and plain zero values. -/
inductive GoValue where
  | emptyMap (key value : GoType)
  | emptySlice (elem : GoType)
  | ptrTo (target : GoValue)
  | zero (t : GoType)
deriving DecidableEq, Repr

/-- The chain built by the owned-reference arm of util.NewInstance: the
loop allocates one cell per reference level, ending at the zero value of
the final element type. -/
def allocChain : GoType → GoValue
  | .tptr elem => .ptrTo (allocChain elem)
  | t => .zero t

/-- Mirror of util.NewInstance. The map arm calls reflect.MakeMap; the
slice-and-array arm calls reflect.MakeSlice, which panics with the fixed
reflect message whenever the kind is not Slice — so the array kind, which
this arm also matches, panics; the reference arm allocates the chain; the
default arm returns the plain zero value. A panic is modelled as the
error value carrying the Go panic message. -/
def NewInstance : GoType → Except String GoValue
  | .tmap key value => .ok (.emptyMap key value)
  | .tslice elem => .ok (.emptySlice elem)
  | .tarray _ _ => .error "reflect.MakeSlice of non-slice type"
  | .tptr elem => .ok (.ptrTo (allocChain elem))
  | t => .ok (.zero t)

end Util

namespace Samples

open Resources Schema

/-- Sample script that always fails. -/
def sampA : Script := ⟨"a", fun _ => .error "boom"⟩

/-- Sample script that always succeeds. -/
def sampB : Script := ⟨"b", fun _ => .ok "vb"⟩

/-- Sample provider-side script named x. -/
def sampP : Script := ⟨"x", fun _ => .ok "from-provider"⟩

/-- Sample inline script also named x. -/
def sampXInline : Script := ⟨"x", fun _ => .ok "from-inline"⟩

/-- Sample provider containing only the script named x. -/
def provWithX : ResourceProvider := (InlineProvider.mk [sampP] [] []).toProvider

/-- Sample empty provider: every lookup is a not-found error. -/
def emptyProv : ResourceProvider := (InlineProvider.mk [] [] []).toProvider

/-- Sample factory that always succeeds with provWithX. -/
def okLoader : Nat → Except String ResourceProvider := fun _ => .ok provWithX

/-- Sample factory that always fails. -/
def badLoader : Nat → Except String ResourceProvider :=
  fun _ => .error "load failed"

/-- Sample skill whose body references scripts a and b, where a fails and
b succeeds, with no provider attached. -/
def skillAB : Skill :=
  ⟨⟨"s", "d"⟩, "<script>a</script><script>b</script>", [sampA, sampB],
    [], [], none, [], false⟩

/-- Sample skill with an attached provider defining x and an inline
script also named x. -/
def skillProv : Skill :=
  ⟨⟨"p", "d"⟩, "body", [sampXInline], [], [], some provWithX, [], false⟩

/-- Sample caching provider state right after one successful lookup of x. -/
def cacheAfterX : CachingProvider :=
  ((NewCachingProvider provWithX).getScript "x").2.1

/-- Sample unparsed skill for the parse-cache witness. -/
def unparsedSkill : Skill :=
  ⟨⟨"u", "d"⟩, "<script>a</script>", [], [], [], none, [], false⟩

end Samples

namespace Util

theorem toList_append (a b : String) : (a ++ b).toList = a.toList ++ b.toList := by
  cases a; cases b; rfl

theorem dropLit_append (l r : List Char) : dropLit l (l ++ r) = some r := by
  induction l with
  | nil => rfl
  | cons c cs ih => simp [dropLit, ih]

theorem openKindAt_append (k : String) (hk : k ∈ tagKinds) (r : List Char) :
    openKindAt (("<" ++ k ++ ">").toList ++ r) = some (k, r) := by
  simp [tagKinds] at hk
  rcases hk with hk | hk | hk <;> subst hk <;>
    simp [openKindAt, dropLit,
      show ("<" ++ "script" ++ ">").toList = ['<','s','c','r','i','p','t','>'] from rfl,
      show ("<" ++ "reference" ++ ">").toList = ['<','r','e','f','e','r','e','n','c','e','>'] from rfl,
      show ("<" ++ "asset" ++ ">").toList = ['<','a','s','s','e','t','>'] from rfl,
      show "<script>".toList = ['<','s','c','r','i','p','t','>'] from rfl,
      show "<reference>".toList = ['<','r','e','f','e','r','e','n','c','e','>'] from rfl,
      show "<asset>".toList = ['<','a','s','s','e','t','>'] from rfl]

theorem closeKindAt_append (k : String) (hk : k ∈ tagKinds) (r : List Char) :
    closeKindAt (("</" ++ k ++ ">").toList ++ r) = some r := by
  simp [tagKinds] at hk
  rcases hk with hk | hk | hk <;> subst hk <;>
    simp [closeKindAt, dropLit,
      show ("</" ++ "script" ++ ">").toList = ['<','/','s','c','r','i','p','t','>'] from rfl,
      show ("</" ++ "reference" ++ ">").toList = ['<','/','r','e','f','e','r','e','n','c','e','>'] from rfl,
      show ("</" ++ "asset" ++ ">").toList = ['<','/','a','s','s','e','t','>'] from rfl,
      show "</script>".toList = ['<','/','s','c','r','i','p','t','>'] from rfl,
      show "</reference>".toList = ['<','/','r','e','f','e','r','e','n','c','e','>'] from rfl,
      show "</asset>".toList = ['<','/','a','s','s','e','t','>'] from rfl]

theorem takeWhile_all_head (p : Char → Bool) (l : List Char) (x : Char)
    (r : List Char) (hl : ∀ c ∈ l, p c = true) (hx : p x = false) :
    (l ++ x :: r).takeWhile p = l := by
  induction l with
  | nil => simp [List.takeWhile, hx]
  | cons c cs ih =>
    have hc : p c = true := hl c (by simp)
    simp [List.takeWhile, hc]
    exact ih (fun d hd => hl d (by simp [hd]))

theorem dropWhile_all_head (p : Char → Bool) (l : List Char) (x : Char)
    (r : List Char) (hl : ∀ c ∈ l, p c = true) (hx : p x = false) :
    (l ++ x :: r).dropWhile p = x :: r := by
  induction l with
  | nil => simp [List.dropWhile, hx]
  | cons c cs ih =>
    have hc : p c = true := hl c (by simp)
    simp [List.dropWhile, hc]
    exact ih (fun d hd => hl d (by simp [hd]))

theorem closeChars (k : String) :
    ("</" ++ k ++ ">").toList = '<' :: '/' :: (k.toList ++ ['>']) := by
  rw [toList_append, toList_append]
  rfl

theorem openChars (k : String) :
    ("<" ++ k ++ ">").toList = '<' :: (k.toList ++ ['>']) := by
  rw [toList_append, toList_append]
  rfl

theorem matchTagAt_full (k1 k2 : String) (h1 : k1 ∈ tagKinds)
    (h2 : k2 ∈ tagKinds) (content : List Char) (hne : content ≠ [])
    (hlt : ∀ c ∈ content, c ≠ '<') :
    matchTagAt (("<" ++ k1 ++ ">").toList ++
        (content ++ ("</" ++ k2 ++ ">").toList)) =
      some (⟨k1, String.mk (trimChars content)⟩, []) := by
  have hp : ∀ c ∈ content, (fun c => decide (c ≠ '<')) c = true := by
    intro c hc; simpa using hlt c hc
  have hx : (fun c => decide (c ≠ '<')) '<' = false := by simp
  rw [matchTagAt, openKindAt_append k1 h1]
  simp only
  rw [closeChars k2]
  rw [takeWhile_all_head _ content '<' ('/' :: (k2.toList ++ ['>'])) hp hx]
  rw [dropWhile_all_head _ content '<' ('/' :: (k2.toList ++ ['>'])) hp hx]
  have hie : content.isEmpty = false := by
    cases content with
    | nil => exact absurd rfl hne
    | cons a l => rfl
  rw [hie]
  simp only [Bool.false_eq_true, if_false]
  have hc : closeKindAt ('<' :: '/' :: (k2.toList ++ ['>'])) = some [] := by
    have := closeKindAt_append k2 h2 []
    rw [closeChars k2] at this
    simpa using this
  rw [hc]

theorem parseTagsAux_nil (fuel : Nat) : parseTagsAux fuel [] = [] := by
  cases fuel <;> rfl

theorem matchTagAt_nil : matchTagAt [] = none := rfl

theorem parseTagsAux_single (fuel : Nat) (cs : List Char) (t : XMLTag)
    (h : matchTagAt cs = some (t, [])) (hf : 1 ≤ fuel) :
    parseTagsAux fuel cs = [t] := by
  cases fuel with
  | zero => omega
  | succ n =>
    cases cs with
    | nil => rw [matchTagAt_nil] at h; cases h
    | cons c cs2 =>
      rw [parseTagsAux, h]
      simp [parseTagsAux_nil]

end Util

/-- C2 (counterexample): the extractor DOES match a tag whose close marker
is of a different kind than its open marker: a script open closed by a
reference close is extracted as a script tag, refuting the claim that only
same-kind open/close pairs are matched. -/
theorem parseXMLTags_mismatched_close_matched :
    Util.ParseXMLTags "<script>x</reference>" = [⟨"script", "x"⟩] := by decide


/-- C8: the generically wrapped Run decodes the argument into a fresh
instance of the input type and fails with the JSON decode error on
malformed input; a failure of the wrapped function is propagated verbatim
(no wrapping) with the empty result string; on success the JSON encoding
of the output is returned (an encode failure fails with that error). -/
theorem easyScript_run_behavior {I O : Type}
    (decode : String → Except String I) (fn : I → Except String O)
    (encode : O → Except String String) (args : String) :
    (∀ e, decode args = .error e →
      Resources.easyScriptRun decode fn encode args = ("", some e))
    ∧ (∀ i e, decode args = .ok i → fn i = .error e →
      Resources.easyScriptRun decode fn encode args = ("", some e))
    ∧ (∀ i o r, decode args = .ok i → fn i = .ok o → encode o = .ok r →
      Resources.easyScriptRun decode fn encode args = (r, none))
    ∧ (∀ i o e, decode args = .ok i → fn i = .ok o → encode o = .error e →
      Resources.easyScriptRun decode fn encode args = ("", some e)) := by
  refine ⟨?_, ?_, ?_, ?_⟩
  · intro e h
    simp [Resources.easyScriptRun, h]
  · intro i e hd hf
    simp [Resources.easyScriptRun, hd, hf]
  · intro i o r hd hf he
    simp [Resources.easyScriptRun, hd, hf, he]
  · intro i o e hd hf he
    simp [Resources.easyScriptRun, hd, hf, he]

/-- C8 (witness): a concrete wrapped function whose failure is propagated
verbatim with the empty result. -/
theorem easyScript_run_behavior_witness :
    ((fun s => if s = "1" then (.ok 1 : Except String Nat) else .error "bad json") "1"
        = .ok 1
      ∧ (fun _ : Nat => (.error "app error" : Except String Nat)) 1
        = .error "app error") ∧
    Resources.easyScriptRun
      (fun s => if s = "1" then (.ok 1 : Except String Nat) else .error "bad json")
      (fun _ : Nat => (.error "app error" : Except String Nat))
      (fun n => .ok (toString n)) "1" = ("", some "app error") :=
  ⟨⟨by simp, rfl⟩,
    (easyScript_run_behavior
      (fun s => if s = "1" then (.ok 1 : Except String Nat) else .error "bad json")
      (fun _ : Nat => (.error "app error" : Except String Nat))
      (fun n => .ok (toString n)) "1").2.1 1 "app error" (by simp) rfl⟩

/-- C9: evaluating the reflective constructor at an array input type: the
slice-and-array arm hands the array kind to reflect.MakeSlice, which
panics, where the claim (and the arm's own grouping of Slice with Array)
expects a usable empty instance to be returned without panicking. -/
theorem newInstance_array_panics :
    Util.NewInstance (.tarray 2 .tint) =
      .error "reflect.MakeSlice of non-slice type" := rfl

/-- C7 (counterexample): a 2xx status other than 200 (here 201) whose body
cleanly decodes to a non-empty result is rejected as a hard failure by the
transport, refuting the claim that every 2xx response has its result
honoured and only non-2xx statuses are hard failures. -/
theorem remoteCall_201_hard_failure :
    Resources.httpCallResponse (fun _ => (⟨"x", ""⟩, true)) 201 "x" =
      .error "remote script returned error: status=201, body=x" := rfl

/-- C7 (amended): the default transport's Call sends a POST to baseURL,
slash, scriptName with the request record carrying script name and args;
any HTTP status other than exactly 200 (including other 2xx statuses) is
a hard failure; on a 200 response, a body that cleanly decodes with a
non-empty error field fails the call with that error; otherwise a
non-empty decoded result field is the result, and a non-JSON or
missing-result body is passed through verbatim as the result. -/
theorem remoteCall_behavior (base name args body : String) (status : Nat)
    (decodeResp : String → Resources.ScriptCallResponse × Bool) :
    (Resources.httpCallRequest base name args =
      (base ++ "/" ++ name, ⟨name, args⟩))
    ∧ (status ≠ 200 → Resources.httpCallResponse decodeResp status body =
        .error ("remote script returned error: status=" ++ toString status ++
          ", body=" ++ body))
    ∧ (∀ r, status = 200 → decodeResp body = (r, true) → r.Error ≠ "" →
        Resources.httpCallResponse decodeResp status body = .error r.Error)
    ∧ (∀ r dOk, status = 200 → decodeResp body = (r, dOk) →
        ¬(dOk = true ∧ r.Error ≠ "") → r.Result ≠ "" →
        Resources.httpCallResponse decodeResp status body = .ok r.Result)
    ∧ (∀ r dOk, status = 200 → decodeResp body = (r, dOk) →
        ¬(dOk = true ∧ r.Error ≠ "") → r.Result = "" →
        Resources.httpCallResponse decodeResp status body = .ok body) := by
  refine ⟨rfl, ?_, ?_, ?_, ?_⟩
  · intro h
    simp [Resources.httpCallResponse, h]
  · intro r h hd he
    subst h
    simp [Resources.httpCallResponse, hd, he]
  · intro r dOk h hd hne hr
    subst h
    rw [Resources.httpCallResponse, if_neg (by omega), hd]
    simp only
    rw [if_neg hne, if_pos hr]
  · intro r dOk h hd hne hr
    subst h
    rw [Resources.httpCallResponse, if_neg (by omega), hd]
    simp only
    rw [if_neg hne, if_neg (by simp [hr])]

/-- C7 (witness): a 404 is a hard failure, and a 200 response whose body
does not decode is passed through verbatim. -/
theorem remoteCall_behavior_witness :
    ((404 : Nat) ≠ 200 ∧
      Resources.httpCallResponse (fun _ => (⟨"", ""⟩, false)) 404 "oops" =
        .error "remote script returned error: status=404, body=oops") ∧
    Resources.httpCallResponse (fun _ => (⟨"", ""⟩, false)) 200 "raw text" =
      .ok "raw text" :=
  ⟨⟨by decide,
    (remoteCall_behavior "b" "n" "a" "oops" 404 (fun _ => (⟨"", ""⟩, false))).2.1
      (by decide)⟩,
    (remoteCall_behavior "b" "n" "a" "raw text" 200
      (fun _ => (⟨"", ""⟩, false))).2.2.2.2 ⟨"", ""⟩ false rfl rfl
      (by simp) rfl⟩

/-- C1: with an attached provider, UseScript resolves through the provider
first and on success runs the provider's script (so a name defined by both
the provider and the inline list yields the provider's result); on a
provider lookup failure, or with no provider attached, it falls back to
the linear inline scan; when neither resolves the name it fails with the
script-not-found error carrying the name. -/
theorem useScript_resolution (s : Schema.Skill) (name args : String) :
    (∀ p sc, s.Provider = some p → p.getScript name = .ok sc →
      s.UseScript name args = Schema.goPair (sc.run args))
    ∧ (∀ p e, s.Provider = some p → p.getScript name = .error e →
      s.UseScript name args = s.useInlineScript name args)
    ∧ (s.Provider = none →
      s.UseScript name args = s.useInlineScript name args)
    ∧ (∀ sc, s.Scripts.find? (fun t => t.name = name) = some sc →
      s.useInlineScript name args = Schema.goPair (sc.run args))
    ∧ (s.Scripts.find? (fun t => t.name = name) = none →
      s.useInlineScript name args =
        ("", some ("script not found: " ++ name))) := by
  refine ⟨?_, ?_, ?_, ?_, ?_⟩
  · intro p sc hp hg
    simp [Schema.Skill.UseScript, hp, hg]
  · intro p e hp hg
    simp [Schema.Skill.UseScript, hp, hg]
  · intro hp
    simp [Schema.Skill.UseScript, hp]
  · intro sc hf
    simp [Schema.Skill.useInlineScript, hf]
  · intro hf
    simp [Schema.Skill.useInlineScript, hf]

/-- C1 (witness): the provider and the inline list both define x; the
provider's result is returned. -/
theorem useScript_resolution_witness :
    (Samples.skillProv.Provider = some Samples.provWithX ∧
      Samples.provWithX.getScript "x" = .ok Samples.sampP) ∧
    Samples.skillProv.UseScript "x" "" = ("from-provider", none) :=
  ⟨⟨rfl, rfl⟩,
    (useScript_resolution Samples.skillProv "x" "").1 Samples.provWithX
      Samples.sampP rfl rfl⟩

theorem goPair_error_empty (r : Except String String) :
    (Schema.goPair r).2 ≠ none → (Schema.goPair r).1 = "" := by
  cases r <;> simp [Schema.goPair]

theorem useScript_error_empty (s : Schema.Skill) (n args : String) :
    (s.UseScript n args).2 ≠ none → (s.UseScript n args).1 = "" := by
  cases hp : s.Provider with
  | none =>
    cases hf : s.Scripts.find? (fun t => t.name = n) with
    | none =>
      simp [Schema.Skill.UseScript, Schema.Skill.useInlineScript, hp, hf]
    | some sc =>
      simp only [Schema.Skill.UseScript, Schema.Skill.useInlineScript, hp, hf]
      exact goPair_error_empty (sc.run args)
  | some p =>
    cases hg : p.getScript n with
    | ok sc =>
      simp only [Schema.Skill.UseScript, hp, hg]
      exact goPair_error_empty (sc.run args)
    | error e =>
      cases hf : s.Scripts.find? (fun t => t.name = n) with
      | none =>
        simp [Schema.Skill.UseScript, Schema.Skill.useInlineScript, hp, hg, hf]
      | some sc =>
        simp only [Schema.Skill.UseScript, Schema.Skill.useInlineScript, hp,
          hg, hf]
        exact goPair_error_empty (sc.run args)

/-- C3: AutoExecute fails with the no-scripts error exactly when the
extracted script-name sequence is empty; otherwise it returns one outcome
per extracted name in extraction order, each recording the name and the
UseScript result and error (with an empty result whenever there is an
error), continuing past per-script failures and returning no top-level
error. -/
theorem autoExecute_outcomes (s : Schema.Skill) (args : String) :
    (s.AutoExecute args = .error "no scripts found in body" ↔
      s.GetScriptNames = [])
    ∧ (s.GetScriptNames ≠ [] →
      s.AutoExecute args = .ok (s.GetScriptNames.map (fun n =>
        ⟨n, (s.UseScript n args).1, (s.UseScript n args).2⟩)))
    ∧ (∀ rs, s.AutoExecute args = .ok rs →
        rs.map (·.ScriptName) = s.GetScriptNames
        ∧ ∀ r ∈ rs, (r.Result, r.Error) = s.UseScript r.ScriptName args
          ∧ (r.Error ≠ none → r.Result = "")) := by
  have hb : s.GetScriptNames ≠ [] →
      s.AutoExecute args = .ok (s.GetScriptNames.map (fun n =>
        ⟨n, (s.UseScript n args).1, (s.UseScript n args).2⟩)) := by
    intro h
    unfold Schema.Skill.AutoExecute
    rw [if_neg (by simpa [List.isEmpty_iff] using h)]
  refine ⟨?_, hb, ?_⟩
  · constructor
    · intro h
      by_contra hne
      rw [hb hne] at h
      cases h
    · intro h
      unfold Schema.Skill.AutoExecute
      rw [if_pos (by simpa [List.isEmpty_iff] using h)]
  · intro rs h
    by_cases hne : s.GetScriptNames = []
    · unfold Schema.Skill.AutoExecute at h
      rw [if_pos (by simpa [List.isEmpty_iff] using hne)] at h
      cases h
    · rw [hb hne] at h
      cases h
      constructor
      · rw [List.map_map]
        exact List.map_id _
      · intro r hr
        rcases List.mem_map.mp hr with ⟨n, _, rfl⟩
        exact ⟨rfl, fun hn => useScript_error_empty s n args hn⟩

/-- C3 (witness): a body referencing a and b where a fails and b succeeds
yields two outcomes in order and no top-level error. -/
theorem autoExecute_outcomes_witness :
    Samples.skillAB.GetScriptNames ≠ [] ∧
    Samples.skillAB.AutoExecute "" =
      .ok [⟨"a", "", some "boom"⟩, ⟨"b", "vb", none⟩] :=
  ⟨by decide, by exact (autoExecute_outcomes Samples.skillAB "").2.1 (by decide)⟩

/-- C10: after ParseXMLTags (or a first GetParsedTags) fills the cache,
later GetParsedTags calls return the tags parsed from the body as it was
at parse time, even after the Body is modified, until ParseXMLTags is
invoked again; the name-listing helpers always re-extract from the
current body. -/
theorem getParsedTags_cache (s : Schema.Skill) (newBody : String) :
    ((({ s.ParseXMLTags with Body := newBody } : Schema.Skill).GetParsedTags).1
        = Util.ParseXMLTags s.Body)
    ∧ (({ s.ParseXMLTags with Body := newBody } : Schema.Skill).GetParsedTags).2
        = { s.ParseXMLTags with Body := newBody }
    ∧ ({ s.ParseXMLTags with Body := newBody } : Schema.Skill).GetScriptNames
        = Util.ExtractScriptNames newBody
    ∧ ({ s.ParseXMLTags with Body := newBody } : Schema.Skill).GetReferenceNames
        = Util.ExtractReferenceNames newBody
    ∧ ({ s.ParseXMLTags with Body := newBody } : Schema.Skill).GetAssetNames
        = Util.ExtractAssetNames newBody
    ∧ ((({ s.ParseXMLTags with Body := newBody } : Schema.Skill).ParseXMLTags).GetParsedTags).1
        = Util.ParseXMLTags newBody
    ∧ (s.parsed = false →
        (({ (s.GetParsedTags).2 with Body := newBody } : Schema.Skill).GetParsedTags).1
          = Util.ParseXMLTags s.Body) := by
  refine ⟨?_, ?_, rfl, rfl, rfl, ?_, ?_⟩
  · simp [Schema.Skill.GetParsedTags, Schema.Skill.ParseXMLTags]
  · simp [Schema.Skill.GetParsedTags, Schema.Skill.ParseXMLTags]
  · simp [Schema.Skill.GetParsedTags, Schema.Skill.ParseXMLTags]
  · intro h
    simp [Schema.Skill.GetParsedTags, Schema.Skill.ParseXMLTags, h]

/-- C10 (witness): a first GetParsedTags on an unparsed skill caches its
tags; after replacing the Body, GetParsedTags still serves the old parse. -/
theorem getParsedTags_cache_witness :
    Samples.unparsedSkill.parsed = false ∧
    ((({ (Samples.unparsedSkill.GetParsedTags).2 with
          Body := "<reference>r</reference>" } : Schema.Skill).GetParsedTags).1
      = Util.ParseXMLTags "<script>a</script>") :=
  ⟨rfl,
    (getParsedTags_cache Samples.unparsedSkill
      "<reference>r</reference>").2.2.2.2.2.2 rfl⟩

namespace Resources

theorem compositeLookup_first_ok {α : Type} (get : ResourceProvider → String → Except String α)
    (msg : String → String) (name : String) :
    ∀ (ante : List ResourceProvider) (p : ResourceProvider)
      (post : List ResourceProvider) (acc : Option String) (v : α),
      (∀ q ∈ ante, ∃ e, get q name = .error e) → get p name = .ok v →
      compositeLookup get msg (ante ++ p :: post) acc name = .ok v := by
  intro ante
  induction ante with
  | nil =>
    intro p post acc v _ h
    simp [compositeLookup, h]
  | cons q qs ih =>
    intro p post acc v hall h
    rcases hall q (by simp) with ⟨e, he⟩
    simp only [List.cons_append, compositeLookup, he]
    exact ih p post (some e) v (fun r hr => hall r (by simp [hr])) h

theorem compositeLookup_all_fail {α : Type} (get : ResourceProvider → String → Except String α)
    (msg : String → String) (name : String) :
    ∀ (ante : List ResourceProvider) (q : ResourceProvider) (acc : Option String),
      (∀ r ∈ ante ++ [q], ∃ e, get r name = .error e) →
      compositeLookup get msg (ante ++ [q]) acc name = get q name := by
  intro ante
  induction ante with
  | nil =>
    intro q acc hall
    rcases hall q (by simp) with ⟨e, he⟩
    simp [compositeLookup, he]
  | cons r rs ih =>
    intro q acc hall
    rcases hall r (by simp) with ⟨e, he⟩
    simp only [List.cons_append, compositeLookup, he]
    exact ih q (some e) (fun t ht => hall t (by simp [ht]))

end Resources

/-- C6: composite lookup tries delegates in list order and returns the
first delegate's success; when every delegate fails the last delegate's
error is returned; an empty delegate list yields the generic not-found
error naming the key - for each of the three lookup kinds. -/
theorem composite_resolution (c : Resources.CompositeProvider) (name : String) :
    (c.providers = [] →
      c.getScript name = .error ("script not found: " ++ name)
      ∧ c.getReference name = .error ("reference not found: " ++ name)
      ∧ c.getAsset name = .error ("asset not found: " ++ name))
    ∧ (∀ ante p post sc, c.providers = ante ++ p :: post →
        (∀ q ∈ ante, ∃ e, q.getScript name = .error e) →
        p.getScript name = .ok sc → c.getScript name = .ok sc)
    ∧ (∀ ante p post v, c.providers = ante ++ p :: post →
        (∀ q ∈ ante, ∃ e, q.getReference name = .error e) →
        p.getReference name = .ok v → c.getReference name = .ok v)
    ∧ (∀ ante p post a, c.providers = ante ++ p :: post →
        (∀ q ∈ ante, ∃ e, q.getAsset name = .error e) →
        p.getAsset name = .ok a → c.getAsset name = .ok a)
    ∧ (∀ ante q, c.providers = ante ++ [q] →
        (∀ r ∈ c.providers, ∃ e, r.getScript name = .error e) →
        c.getScript name = q.getScript name)
    ∧ (∀ ante q, c.providers = ante ++ [q] →
        (∀ r ∈ c.providers, ∃ e, r.getReference name = .error e) →
        c.getReference name = q.getReference name)
    ∧ (∀ ante q, c.providers = ante ++ [q] →
        (∀ r ∈ c.providers, ∃ e, r.getAsset name = .error e) →
        c.getAsset name = q.getAsset name) := by
  refine ⟨?_, ?_, ?_, ?_, ?_, ?_, ?_⟩
  · intro h
    refine ⟨?_, ?_, ?_⟩ <;>
      simp [Resources.CompositeProvider.getScript,
        Resources.CompositeProvider.getReference,
        Resources.CompositeProvider.getAsset, h, Resources.compositeLookup]
  · intro ante p post sc h hall hp
    rw [Resources.CompositeProvider.getScript, h]
    exact Resources.compositeLookup_first_ok _ _ name ante p post none sc hall hp
  · intro ante p post v h hall hp
    rw [Resources.CompositeProvider.getReference, h]
    exact Resources.compositeLookup_first_ok _ _ name ante p post none v hall hp
  · intro ante p post a h hall hp
    rw [Resources.CompositeProvider.getAsset, h]
    exact Resources.compositeLookup_first_ok _ _ name ante p post none a hall hp
  · intro ante q h hall
    rw [Resources.CompositeProvider.getScript, h]
    exact Resources.compositeLookup_all_fail _ _ name ante q none
      (fun t ht => hall t (by rw [h]; exact ht))
  · intro ante q h hall
    rw [Resources.CompositeProvider.getReference, h]
    exact Resources.compositeLookup_all_fail _ _ name ante q none
      (fun t ht => hall t (by rw [h]; exact ht))
  · intro ante q h hall
    rw [Resources.CompositeProvider.getAsset, h]
    exact Resources.compositeLookup_all_fail _ _ name ante q none
      (fun t ht => hall t (by rw [h]; exact ht))

/-- C6 (witness): a composite of an empty provider followed by one that
defines x returns the second delegate's script. -/
theorem composite_resolution_witness :
    ((Resources.CompositeProvider.mk [Samples.emptyProv, Samples.provWithX]).providers
        = [Samples.emptyProv] ++ Samples.provWithX :: []
      ∧ Samples.provWithX.getScript "x" = .ok Samples.sampP) ∧
    (Resources.CompositeProvider.mk [Samples.emptyProv, Samples.provWithX]).getScript "x"
      = .ok Samples.sampP :=
  ⟨⟨rfl, rfl⟩,
    (composite_resolution
        (Resources.CompositeProvider.mk [Samples.emptyProv, Samples.provWithX])
        "x").2.1 [Samples.emptyProv] Samples.provWithX [] Samples.sampP rfl
      (by
        intro q hq
        simp only [List.mem_singleton] at hq
        subst hq
        exact ⟨"script not found: x", rfl⟩)
      rfl⟩

namespace Resources

theorem cachedLookup_hit {α : Type} (cache : List (String × α))
    (deleg : String → Except String α) (name : String) (v : α)
    (h : cache.lookup name = some v) :
    cachedLookup cache deleg name = (.ok v, cache, false) := by
  simp [cachedLookup, h]

theorem cachedLookup_miss_error {α : Type} (cache : List (String × α))
    (deleg : String → Except String α) (name e : String)
    (h1 : cache.lookup name = none) (h2 : deleg name = .error e) :
    cachedLookup cache deleg name = (.error e, cache, true) := by
  simp [cachedLookup, h1, h2]

theorem cachedLookup_miss_ok {α : Type} (cache : List (String × α))
    (deleg : String → Except String α) (name : String) (v : α)
    (h1 : cache.lookup name = none) (h2 : deleg name = .ok v) :
    cachedLookup cache deleg name = (.ok v, (name, v) :: cache, true) := by
  simp [cachedLookup, h1, h2]

theorem cachingStep_scriptCache (c : CachingProvider) (k : String)
    (sc : Script) (h : c.scriptCache.lookup k = some sc) (op : CacheOp) :
    (c.step op).1.scriptCache.lookup k = some sc ∧
    (c.step op).2 ≠ some (CacheOp.gS k) := by
  cases op with
  | gS n =>
    by_cases hnk : n = k
    · subst hnk
      simp [CachingProvider.step, CachingProvider.getScript,
        cachedLookup_hit _ _ _ _ h, h]
    · have hkn : ¬k = n := fun hh => hnk hh.symm
      cases hl : c.scriptCache.lookup n with
      | some v =>
        simp [CachingProvider.step, CachingProvider.getScript,
          cachedLookup_hit _ _ _ _ hl, h, hnk]
      | none =>
        cases hd : c.provider.getScript n with
        | error e =>
          simp [CachingProvider.step, CachingProvider.getScript,
            cachedLookup_miss_error _ _ _ _ hl hd, h, hnk]
        | ok v =>
          have hb : (k == n) = false := beq_eq_false_iff_ne.mpr hkn
          simp [CachingProvider.step, CachingProvider.getScript,
            cachedLookup_miss_ok _ _ _ _ hl hd, h, hnk, List.lookup, hb]
  | gR n =>
    rcases hcl : cachedLookup c.refCache c.provider.getReference n with ⟨r, cache2, inv⟩
    refine ⟨by simp [CachingProvider.step, CachingProvider.getReference, hcl, h], ?_⟩
    simp only [CachingProvider.step, CachingProvider.getReference, hcl]
    cases inv <;> simp
  | gA n =>
    rcases hcl : cachedLookup c.assetCache c.provider.getAsset n with ⟨r, cache2, inv⟩
    refine ⟨by simp [CachingProvider.step, CachingProvider.getAsset, hcl, h], ?_⟩
    simp only [CachingProvider.step, CachingProvider.getAsset, hcl]
    cases inv <;> simp
  | lS => exact ⟨by simpa [CachingProvider.step, CachingProvider.listScripts] using h, by simp [CachingProvider.step, CachingProvider.listScripts]⟩
  | lR => exact ⟨by simpa [CachingProvider.step, CachingProvider.listReferences] using h, by simp [CachingProvider.step, CachingProvider.listReferences]⟩
  | lA => exact ⟨by simpa [CachingProvider.step, CachingProvider.listAssets] using h, by simp [CachingProvider.step, CachingProvider.listAssets]⟩

end Resources

namespace Resources

theorem cachingStep_refCache (c : CachingProvider) (k : String)
    (v : String) (h : c.refCache.lookup k = some v) (op : CacheOp) :
    (c.step op).1.refCache.lookup k = some v ∧
    (c.step op).2 ≠ some (CacheOp.gR k) := by
  cases op with
  | gR n =>
    by_cases hnk : n = k
    · subst hnk
      simp [CachingProvider.step, CachingProvider.getReference,
        cachedLookup_hit _ _ _ _ h, h]
    · have hkn : ¬k = n := fun hh => hnk hh.symm
      cases hl : c.refCache.lookup n with
      | some w =>
        simp [CachingProvider.step, CachingProvider.getReference,
          cachedLookup_hit _ _ _ _ hl, h, hnk]
      | none =>
        cases hd : c.provider.getReference n with
        | error e =>
          simp [CachingProvider.step, CachingProvider.getReference,
            cachedLookup_miss_error _ _ _ _ hl hd, h, hnk]
        | ok w =>
          have hb : (k == n) = false := beq_eq_false_iff_ne.mpr hkn
          simp [CachingProvider.step, CachingProvider.getReference,
            cachedLookup_miss_ok _ _ _ _ hl hd, h, hnk, List.lookup, hb]
  | gS n =>
    rcases hcl : cachedLookup c.scriptCache c.provider.getScript n with ⟨r, cache2, inv⟩
    refine ⟨by simp [CachingProvider.step, CachingProvider.getScript, hcl, h], ?_⟩
    simp only [CachingProvider.step, CachingProvider.getScript, hcl]
    cases inv <;> simp
  | gA n =>
    rcases hcl : cachedLookup c.assetCache c.provider.getAsset n with ⟨r, cache2, inv⟩
    refine ⟨by simp [CachingProvider.step, CachingProvider.getAsset, hcl, h], ?_⟩
    simp only [CachingProvider.step, CachingProvider.getAsset, hcl]
    cases inv <;> simp
  | lS => exact ⟨by simpa [CachingProvider.step, CachingProvider.listScripts] using h, by simp [CachingProvider.step, CachingProvider.listScripts]⟩
  | lR => exact ⟨by simpa [CachingProvider.step, CachingProvider.listReferences] using h, by simp [CachingProvider.step, CachingProvider.listReferences]⟩
  | lA => exact ⟨by simpa [CachingProvider.step, CachingProvider.listAssets] using h, by simp [CachingProvider.step, CachingProvider.listAssets]⟩

theorem cachingStep_assetCache (c : CachingProvider) (k : String)
    (a : Asset) (h : c.assetCache.lookup k = some a) (op : CacheOp) :
    (c.step op).1.assetCache.lookup k = some a ∧
    (c.step op).2 ≠ some (CacheOp.gA k) := by
  cases op with
  | gA n =>
    by_cases hnk : n = k
    · subst hnk
      simp [CachingProvider.step, CachingProvider.getAsset,
        cachedLookup_hit _ _ _ _ h, h]
    · have hkn : ¬k = n := fun hh => hnk hh.symm
      cases hl : c.assetCache.lookup n with
      | some w =>
        simp [CachingProvider.step, CachingProvider.getAsset,
          cachedLookup_hit _ _ _ _ hl, h, hnk]
      | none =>
        cases hd : c.provider.getAsset n with
        | error e =>
          simp [CachingProvider.step, CachingProvider.getAsset,
            cachedLookup_miss_error _ _ _ _ hl hd, h, hnk]
        | ok w =>
          have hb : (k == n) = false := beq_eq_false_iff_ne.mpr hkn
          simp [CachingProvider.step, CachingProvider.getAsset,
            cachedLookup_miss_ok _ _ _ _ hl hd, h, hnk, List.lookup, hb]
  | gS n =>
    rcases hcl : cachedLookup c.scriptCache c.provider.getScript n with ⟨r, cache2, inv⟩
    refine ⟨by simp [CachingProvider.step, CachingProvider.getScript, hcl, h], ?_⟩
    simp only [CachingProvider.step, CachingProvider.getScript, hcl]
    cases inv <;> simp
  | gR n =>
    rcases hcl : cachedLookup c.refCache c.provider.getReference n with ⟨r, cache2, inv⟩
    refine ⟨by simp [CachingProvider.step, CachingProvider.getReference, hcl, h], ?_⟩
    simp only [CachingProvider.step, CachingProvider.getReference, hcl]
    cases inv <;> simp
  | lS => exact ⟨by simpa [CachingProvider.step, CachingProvider.listScripts] using h, by simp [CachingProvider.step, CachingProvider.listScripts]⟩
  | lR => exact ⟨by simpa [CachingProvider.step, CachingProvider.listReferences] using h, by simp [CachingProvider.step, CachingProvider.listReferences]⟩
  | lA => exact ⟨by simpa [CachingProvider.step, CachingProvider.listAssets] using h, by simp [CachingProvider.step, CachingProvider.listAssets]⟩

theorem option_toList_count_ne {x : Option CacheOp} {o : CacheOp}
    (h : x ≠ some o) : x.toList.count o = 0 := by
  cases x with
  | none => rfl
  | some y =>
    have : y ≠ o := fun hh => h (by rw [hh])
    simp [List.count_singleton, beq_eq_false_iff_ne.mpr this]

theorem cachingRunOps_script (k : String) (sc : Script) :
    ∀ (ops : List CacheOp) (c : CachingProvider),
      c.scriptCache.lookup k = some sc →
      (c.runOps ops).1.scriptCache.lookup k = some sc ∧
      (c.runOps ops).2.count (CacheOp.gS k) = 0 := by
  intro ops
  induction ops with
  | nil =>
    intro c h
    exact ⟨h, rfl⟩
  | cons op ops ih =>
    intro c h
    have hstep := cachingStep_scriptCache c k sc h op
    have htail := ih (c.step op).1 hstep.1
    have hcall := option_toList_count_ne hstep.2
    simp only [CachingProvider.runOps]
    constructor
    · exact htail.1
    · simp [List.count_append, hcall, htail.2]

theorem cachingRunOps_ref (k v : String) :
    ∀ (ops : List CacheOp) (c : CachingProvider),
      c.refCache.lookup k = some v →
      (c.runOps ops).1.refCache.lookup k = some v ∧
      (c.runOps ops).2.count (CacheOp.gR k) = 0 := by
  intro ops
  induction ops with
  | nil =>
    intro c h
    exact ⟨h, rfl⟩
  | cons op ops ih =>
    intro c h
    have hstep := cachingStep_refCache c k v h op
    have htail := ih (c.step op).1 hstep.1
    have hcall := option_toList_count_ne hstep.2
    simp only [CachingProvider.runOps]
    exact ⟨htail.1, by simp [List.count_append, hcall, htail.2]⟩

theorem cachingRunOps_asset (k : String) (a : Asset) :
    ∀ (ops : List CacheOp) (c : CachingProvider),
      c.assetCache.lookup k = some a →
      (c.runOps ops).1.assetCache.lookup k = some a ∧
      (c.runOps ops).2.count (CacheOp.gA k) = 0 := by
  intro ops
  induction ops with
  | nil =>
    intro c h
    exact ⟨h, rfl⟩
  | cons op ops ih =>
    intro c h
    have hstep := cachingStep_assetCache c k a h op
    have htail := ih (c.step op).1 hstep.1
    have hcall := option_toList_count_ne hstep.2
    simp only [CachingProvider.runOps]
    exact ⟨htail.1, by simp [List.count_append, hcall, htail.2]⟩

end Resources

/-- C5: every point lookup consults its per-kind cache first; on a miss it
delegates and stores the result only on success; once the cache holds a
key, any clear-free operation sequence preserves the entry and never
delegates that key's kind again, so later lookups return the same stored
value and the delegate is invoked at most once per key between clears;
list operations always delegate and touch no cache. -/
theorem caching_transparent (c : Resources.CachingProvider) (name : String) :
    (∀ sc, c.scriptCache.lookup name = some sc →
      c.getScript name = (.ok sc, c, false))
    ∧ (∀ v, c.refCache.lookup name = some v →
      c.getReference name = (.ok v, c, false))
    ∧ (∀ a, c.assetCache.lookup name = some a →
      c.getAsset name = (.ok a, c, false))
    ∧ (∀ e, c.scriptCache.lookup name = none →
      c.provider.getScript name = .error e →
      c.getScript name = (.error e, c, true))
    ∧ (∀ e, c.refCache.lookup name = none →
      c.provider.getReference name = .error e →
      c.getReference name = (.error e, c, true))
    ∧ (∀ e, c.assetCache.lookup name = none →
      c.provider.getAsset name = .error e →
      c.getAsset name = (.error e, c, true))
    ∧ (∀ sc, c.scriptCache.lookup name = none →
      c.provider.getScript name = .ok sc →
      c.getScript name =
        (.ok sc, { c with scriptCache := (name, sc) :: c.scriptCache }, true))
    ∧ (∀ v, c.refCache.lookup name = none →
      c.provider.getReference name = .ok v →
      c.getReference name =
        (.ok v, { c with refCache := (name, v) :: c.refCache }, true))
    ∧ (∀ a, c.assetCache.lookup name = none →
      c.provider.getAsset name = .ok a →
      c.getAsset name =
        (.ok a, { c with assetCache := (name, a) :: c.assetCache }, true))
    ∧ c.listScripts = (c.provider.listScripts, c)
    ∧ c.listReferences = (c.provider.listReferences, c)
    ∧ c.listAssets = (c.provider.listAssets, c)
    ∧ (∀ sc ops, c.scriptCache.lookup name = some sc →
        (c.runOps ops).1.scriptCache.lookup name = some sc ∧
        (c.runOps ops).2.count (Resources.CacheOp.gS name) = 0)
    ∧ (∀ v ops, c.refCache.lookup name = some v →
        (c.runOps ops).1.refCache.lookup name = some v ∧
        (c.runOps ops).2.count (Resources.CacheOp.gR name) = 0)
    ∧ (∀ a ops, c.assetCache.lookup name = some a →
        (c.runOps ops).1.assetCache.lookup name = some a ∧
        (c.runOps ops).2.count (Resources.CacheOp.gA name) = 0) := by
  refine ⟨?_, ?_, ?_, ?_, ?_, ?_, ?_, ?_, ?_, rfl, rfl, rfl, ?_, ?_, ?_⟩
  · intro sc h
    simp [Resources.CachingProvider.getScript,
      Resources.cachedLookup_hit _ _ _ _ h]
  · intro v h
    simp [Resources.CachingProvider.getReference,
      Resources.cachedLookup_hit _ _ _ _ h]
  · intro a h
    simp [Resources.CachingProvider.getAsset,
      Resources.cachedLookup_hit _ _ _ _ h]
  · intro e h1 h2
    simp [Resources.CachingProvider.getScript,
      Resources.cachedLookup_miss_error _ _ _ _ h1 h2]
  · intro e h1 h2
    simp [Resources.CachingProvider.getReference,
      Resources.cachedLookup_miss_error _ _ _ _ h1 h2]
  · intro e h1 h2
    simp [Resources.CachingProvider.getAsset,
      Resources.cachedLookup_miss_error _ _ _ _ h1 h2]
  · intro sc h1 h2
    simp [Resources.CachingProvider.getScript,
      Resources.cachedLookup_miss_ok _ _ _ _ h1 h2]
  · intro v h1 h2
    simp [Resources.CachingProvider.getReference,
      Resources.cachedLookup_miss_ok _ _ _ _ h1 h2]
  · intro a h1 h2
    simp [Resources.CachingProvider.getAsset,
      Resources.cachedLookup_miss_ok _ _ _ _ h1 h2]
  · intro sc ops h
    exact Resources.cachingRunOps_script name sc ops c h
  · intro v ops h
    exact Resources.cachingRunOps_ref name v ops c h
  · intro a ops h
    exact Resources.cachingRunOps_asset name a ops c h

/-- C5 (witness): after one successful lookup of x, the cache holds x, a
second lookup returns the same stored script without delegating, and a
later clear-free run makes no further delegate call for x. -/
theorem caching_transparent_witness :
    Samples.cacheAfterX.scriptCache.lookup "x" = some Samples.sampP ∧
    Samples.cacheAfterX.getScript "x" =
      (.ok Samples.sampP, Samples.cacheAfterX, false) ∧
    ((Samples.cacheAfterX.runOps [Resources.CacheOp.gS "x"]).2.count
      (Resources.CacheOp.gS "x") = 0) :=
  ⟨rfl,
    (caching_transparent Samples.cacheAfterX "x").1 Samples.sampP rfl,
    ((caching_transparent Samples.cacheAfterX "x").2.2.2.2.2.2.2.2.2.2.2.2.1
      Samples.sampP [Resources.CacheOp.gS "x"] rfl).2⟩

namespace Resources

theorem lazyStep_inited (p : LazyLoadingProvider) (h : p.inited = true)
    (op : LazyOp) : p.step op = p := by
  cases op <;>
    · simp only [LazyLoadingProvider.step, LazyLoadingProvider.getScript,
        LazyLoadingProvider.getReference, LazyLoadingProvider.getAsset,
        LazyLoadingProvider.listScripts, LazyLoadingProvider.listReferences,
        LazyLoadingProvider.listAssets, LazyLoadingProvider.init, h,
        if_true]
      cases p.provider <;> rfl

theorem lazyRunOps_inited (p : LazyLoadingProvider) (h : p.inited = true) :
    ∀ ops : List LazyOp, p.runOps ops = p := by
  intro ops
  induction ops with
  | nil => rfl
  | cons op ops ih =>
    simp only [LazyLoadingProvider.runOps, lazyStep_inited p h op]
    exact ih

theorem lazyStep_fresh_ok (loader : Nat → Except String ResourceProvider)
    (pr : ResourceProvider) (h : loader 0 = .ok pr) (op : LazyOp) :
    (NewLazyLoadingProvider loader).step op =
      { loader := loader, provider := some pr, inited := true, calls := 1 } := by
  cases op <;>
    simp [LazyLoadingProvider.step, LazyLoadingProvider.getScript,
      LazyLoadingProvider.getReference, LazyLoadingProvider.getAsset,
      LazyLoadingProvider.listScripts, LazyLoadingProvider.listReferences,
      LazyLoadingProvider.listAssets, LazyLoadingProvider.init,
      NewLazyLoadingProvider, h]

theorem lazyStep_fail (p : LazyLoadingProvider) (op : LazyOp) (e : String)
    (h : p.inited = false) (he : p.loader p.calls = .error e) :
    p.step op = { p with calls := p.calls + 1 } := by
  cases op <;>
    simp [LazyLoadingProvider.step, LazyLoadingProvider.getScript,
      LazyLoadingProvider.getReference, LazyLoadingProvider.getAsset,
      LazyLoadingProvider.listScripts, LazyLoadingProvider.listReferences,
      LazyLoadingProvider.listAssets, LazyLoadingProvider.init, h, he]

theorem lazyRunOps_failing :
    ∀ (ops : List LazyOp) (p : LazyLoadingProvider), p.inited = false →
      (∀ i, ∃ e, p.loader i = .error e) →
      (p.runOps ops).calls = p.calls + ops.length ∧
      (p.runOps ops).inited = false := by
  intro ops
  induction ops with
  | nil => intro p h _; exact ⟨rfl, h⟩
  | cons op ops ih =>
    intro p h hall
    rcases hall p.calls with ⟨e, he⟩
    simp only [LazyLoadingProvider.runOps, lazyStep_fail p op e h he]
    have := ih { p with calls := p.calls + 1 } h hall
    refine ⟨?_, this.2⟩
    rw [this.1]
    simp
    omega

end Resources

/-- C4: for every lazy provider and sequential operation sequence the
factory runs exactly once, on the first access, and every later operation
reuses the stored provider without invoking the factory again; a factory
failure fails the triggering operation, leaves the wrapper unmarked, and
the next access invokes the factory again. -/
theorem lazy_factory_once (loader : Nat → Except String Resources.ResourceProvider)
    (pr : Resources.ResourceProvider) (ops : List Resources.LazyOp) :
    (loader 0 = .ok pr → ops ≠ [] →
      (Resources.NewLazyLoadingProvider loader).runOps ops =
        { loader := loader, provider := some pr, inited := true, calls := 1 })
    ∧ (∀ (p : Resources.LazyLoadingProvider)
          (pr2 : Resources.ResourceProvider),
        p.inited = true → p.provider = some pr2 →
        (∀ nm, p.getScript nm = (pr2.getScript nm, p))
        ∧ (∀ nm, p.getReference nm = (pr2.getReference nm, p))
        ∧ (∀ nm, p.getAsset nm = (pr2.getAsset nm, p))
        ∧ p.listScripts = (pr2.listScripts, p)
        ∧ p.listReferences = (pr2.listReferences, p)
        ∧ p.listAssets = (pr2.listAssets, p))
    ∧ (∀ (p : Resources.LazyLoadingProvider) (e nm : String),
        p.inited = false → p.loader p.calls = .error e →
        p.getScript nm =
          (.error ("failed to load provider: " ++ e),
            { p with calls := p.calls + 1 })
        ∧ ({ p with calls := p.calls + 1 } :
            Resources.LazyLoadingProvider).inited = false)
    ∧ ((∀ i, ∃ e, loader i = .error e) →
        ((Resources.NewLazyLoadingProvider loader).runOps ops).calls = ops.length
        ∧ ((Resources.NewLazyLoadingProvider loader).runOps ops).inited
            = false) := by
  refine ⟨?_, ?_, ?_, ?_⟩
  · intro h hne
    cases ops with
    | nil => exact absurd rfl hne
    | cons op ops2 =>
      simp only [Resources.LazyLoadingProvider.runOps,
        Resources.lazyStep_fresh_ok loader pr h op]
      exact Resources.lazyRunOps_inited _ rfl ops2
  · intro p pr2 h hp
    refine ⟨?_, ?_, ?_, ?_, ?_, ?_⟩ <;>
      simp [Resources.LazyLoadingProvider.getScript,
        Resources.LazyLoadingProvider.getReference,
        Resources.LazyLoadingProvider.getAsset,
        Resources.LazyLoadingProvider.listScripts,
        Resources.LazyLoadingProvider.listReferences,
        Resources.LazyLoadingProvider.listAssets,
        Resources.LazyLoadingProvider.init, h, hp]
  · intro p e nm h he
    constructor
    · simp [Resources.LazyLoadingProvider.getScript,
        Resources.LazyLoadingProvider.init, h, he]
    · simpa using h
  · intro hall
    have := Resources.lazyRunOps_failing ops
      (Resources.NewLazyLoadingProvider loader) rfl hall
    simpa [Resources.NewLazyLoadingProvider] using this

/-- C4 (witness): one access on a fresh lazy provider with a succeeding
factory loads exactly once and stores the provider. -/
theorem lazy_factory_once_witness :
    (Samples.okLoader 0 = .ok Samples.provWithX ∧
      ([Resources.LazyOp.gS "x"] : List Resources.LazyOp) ≠ []) ∧
    (Resources.NewLazyLoadingProvider Samples.okLoader).runOps
        [Resources.LazyOp.gS "x"] =
      { loader := Samples.okLoader, provider := some Samples.provWithX,
        inited := true, calls := 1 } :=
  ⟨⟨rfl, by simp⟩,
    (lazy_factory_once Samples.okLoader Samples.provWithX
      [Resources.LazyOp.gS "x"]).1 rfl (by simp)⟩

namespace Util

theorem parseXMLTags_eq (s : String) : ParseXMLTags s = parseChars s.toList := rfl

theorem dropLit_length : ∀ (l cs r : List Char),
    dropLit l cs = some r → r.length + l.length = cs.length := by
  intro l
  induction l with
  | nil =>
    intro cs r h
    simp [dropLit] at h
    subst h
    simp
  | cons p ps ih =>
    intro cs r h
    cases cs with
    | nil => simp [dropLit] at h
    | cons c cs2 =>
      by_cases hc : c = p
      · simp only [dropLit, if_pos hc] at h
        have := ih cs2 r h
        simp
        omega
      · simp [dropLit, hc] at h

theorem openKindAt_length (cs : List Char) (k : String) (r : List Char)
    (h : openKindAt cs = some (k, r)) : r.length < cs.length := by
  unfold openKindAt at h
  cases h1 : dropLit "<script>".toList cs with
  | some r1 =>
    rw [h1] at h
    simp only [Option.some.injEq, Prod.mk.injEq] at h
    obtain ⟨-, hr⟩ := h
    subst hr
    have := dropLit_length _ _ _ h1
    have h8 : ("<script>".toList).length = 8 := rfl
    omega
  | none =>
    rw [h1] at h
    cases h2 : dropLit "<reference>".toList cs with
    | some r1 =>
      rw [h2] at h
      simp only [Option.some.injEq, Prod.mk.injEq] at h
      obtain ⟨-, hr⟩ := h
      subst hr
      have := dropLit_length _ _ _ h2
      have h11 : ("<reference>".toList).length = 11 := rfl
      omega
    | none =>
      rw [h2] at h
      cases h3 : dropLit "<asset>".toList cs with
      | some r1 =>
        rw [h3] at h
        simp only [Option.some.injEq, Prod.mk.injEq] at h
        obtain ⟨-, hr⟩ := h
        subst hr
        have := dropLit_length _ _ _ h3
        have h7 : ("<asset>".toList).length = 7 := rfl
        omega
      | none =>
        rw [h3] at h
        cases h

theorem closeKindAt_length (cs : List Char) (r : List Char)
    (h : closeKindAt cs = some r) : r.length < cs.length := by
  unfold closeKindAt at h
  cases h1 : dropLit "</script>".toList cs with
  | some r1 =>
    rw [h1] at h
    simp only [Option.some.injEq] at h
    subst h
    have := dropLit_length _ _ _ h1
    have h9 : ("</script>".toList).length = 9 := rfl
    omega
  | none =>
    rw [h1] at h
    cases h2 : dropLit "</reference>".toList cs with
    | some r1 =>
      rw [h2] at h
      simp only [Option.some.injEq] at h
      subst h
      have := dropLit_length _ _ _ h2
      have h12 : ("</reference>".toList).length = 12 := rfl
      omega
    | none =>
      rw [h2] at h
      cases h3 : dropLit "</asset>".toList cs with
      | some r1 =>
        rw [h3] at h
        simp only [Option.some.injEq] at h
        subst h
        have := dropLit_length _ _ _ h3
        have h8 : ("</asset>".toList).length = 8 := rfl
        omega
      | none =>
        rw [h3] at h
        cases h

theorem length_dropWhile_le (p : Char → Bool) (l : List Char) :
    (l.dropWhile p).length ≤ l.length := by
  induction l with
  | nil => simp [List.dropWhile]
  | cons c cs ih =>
    by_cases h : p c
    · simp [List.dropWhile, h]
      omega
    · simp [List.dropWhile, h]

theorem matchTagAt_lt (cs : List Char) (t : XMLTag) (rest : List Char)
    (h : matchTagAt cs = some (t, rest)) : rest.length < cs.length := by
  unfold matchTagAt at h
  cases ho : openKindAt cs with
  | none => rw [ho] at h; cases h
  | some kr =>
    rcases kr with ⟨k, r1⟩
    rw [ho] at h
    simp only at h
    by_cases he : (r1.takeWhile (fun c => c ≠ '<')).isEmpty
    · rw [if_pos he] at h; cases h
    · rw [if_neg he] at h
      cases hc : closeKindAt (r1.dropWhile (fun c => c ≠ '<')) with
      | none => rw [hc] at h; cases h
      | some rest2 =>
        rw [hc] at h
        simp only [Option.some.injEq, Prod.mk.injEq] at h
        obtain ⟨-, hr⟩ := h
        subst hr
        have ho2 := openKindAt_length cs k r1 ho
        have hc2 := closeKindAt_length _ _ hc
        have hd : (r1.dropWhile (fun c => c ≠ '<')).length ≤ r1.length :=
          length_dropWhile_le _ r1
        omega

end Util

namespace Util

theorem parseTagsAux_congr : ∀ (f1 : Nat) (cs : List Char) (f2 : Nat),
    cs.length ≤ f1 → cs.length ≤ f2 →
    parseTagsAux f1 cs = parseTagsAux f2 cs := by
  intro f1
  induction f1 with
  | zero =>
    intro cs f2 h1 _
    have : cs = [] := List.length_eq_zero.mp (Nat.le_zero.mp h1)
    subst this
    simp [parseTagsAux_nil]
  | succ n ih =>
    intro cs f2 h1 h2
    cases cs with
    | nil => rw [parseTagsAux_nil, parseTagsAux_nil]
    | cons c cs2 =>
      cases f2 with
      | zero => simp at h2
      | succ m =>
        simp only [parseTagsAux]
        cases hm : matchTagAt (c :: cs2) with
        | none =>
          simp only
          have hb : cs2.length ≤ n := by simp at h1; omega
          have hb2 : cs2.length ≤ m := by simp at h2; omega
          exact ih cs2 m hb hb2
        | some tr =>
          rcases tr with ⟨t, rest⟩
          simp only
          have hlt := matchTagAt_lt _ _ _ hm
          have hb : rest.length ≤ n := by simp at hlt h1; omega
          have hb2 : rest.length ≤ m := by simp at hlt h2; omega
          rw [ih rest m hb hb2]

theorem parseChars_cons_none (c : Char) (cs : List Char)
    (h : matchTagAt (c :: cs) = none) :
    parseChars (c :: cs) = parseChars cs := by
  simp only [parseChars, List.length_cons, parseTagsAux, h]

theorem parseChars_matched (cs : List Char) (t : XMLTag) (rest : List Char)
    (h : matchTagAt cs = some (t, rest)) :
    parseChars cs = t :: parseChars rest := by
  cases cs with
  | nil => rw [matchTagAt_nil] at h; cases h
  | cons c cs2 =>
    have hlt := matchTagAt_lt _ _ _ h
    simp only [parseChars, List.length_cons, parseTagsAux, h]
    rw [parseTagsAux_congr cs2.length rest rest.length
      (by simp at hlt; omega) (Nat.le_refl _)]

theorem matchTagAt_cons_ne (c : Char) (cs : List Char) (h : c ≠ '<') :
    matchTagAt (c :: cs) = none := by
  simp [matchTagAt, openKindAt, dropLit, h,
    show "<script>".toList = ['<','s','c','r','i','p','t','>'] from rfl,
    show "<reference>".toList = ['<','r','e','f','e','r','e','n','c','e','>'] from rfl,
    show "<asset>".toList = ['<','a','s','s','e','t','>'] from rfl]

theorem matchTagAt_cons_slash (cs : List Char) :
    matchTagAt ('<' :: '/' :: cs) = none := by
  simp [matchTagAt, openKindAt, dropLit,
    show "<script>".toList = ['<','s','c','r','i','p','t','>'] from rfl,
    show "<reference>".toList = ['<','r','e','f','e','r','e','n','c','e','>'] from rfl,
    show "<asset>".toList = ['<','a','s','s','e','t','>'] from rfl]

theorem parseChars_skip (pre : List Char) (hpre : ∀ c ∈ pre, c ≠ '<')
    (cs : List Char) : parseChars (pre ++ cs) = parseChars cs := by
  induction pre with
  | nil => rfl
  | cons c pre2 ih =>
    have hc : c ≠ '<' := hpre c (by simp)
    rw [List.cons_append, parseChars_cons_none _ _ (matchTagAt_cons_ne _ _ hc)]
    exact ih (fun d hd => hpre d (by simp [hd]))

theorem parseChars_all_ne (cs : List Char) (h : ∀ c ∈ cs, c ≠ '<') :
    parseChars cs = [] := by
  have := parseChars_skip cs h []
  simpa using this

theorem takeWhile_all (p : Char → Bool) (l : List Char)
    (h : ∀ c ∈ l, p c = true) : l.takeWhile p = l := by
  induction l with
  | nil => rfl
  | cons c cs _ih =>
    have hc : p c = true := h c (by simp)
    simp [List.takeWhile, hc]
    exact fun d hd => h d (by simp [hd])

theorem dropWhile_all (p : Char → Bool) (l : List Char)
    (h : ∀ c ∈ l, p c = true) : l.dropWhile p = [] := by
  induction l with
  | nil => rfl
  | cons c cs _ih =>
    have hc : p c = true := h c (by simp)
    simp [List.dropWhile, hc]
    exact fun d hd => h d (by simp [hd])

theorem kindChars_ne (k : String) (hk : k ∈ tagKinds) :
    ∀ c ∈ k.toList, c ≠ '<' := by
  simp [tagKinds] at hk
  rcases hk with hk | hk | hk <;> subst hk <;> decide

end Util

namespace Util

theorem matchTagAt_full_rest (k1 k2 : String) (h1 : k1 ∈ tagKinds)
    (h2 : k2 ∈ tagKinds) (content : List Char) (hne : content ≠ [])
    (hlt : ∀ c ∈ content, c ≠ '<') (rest : List Char) :
    matchTagAt (("<" ++ k1 ++ ">").toList ++
        (content ++ (("</" ++ k2 ++ ">").toList ++ rest))) =
      some (⟨k1, String.mk (trimChars content)⟩, rest) := by
  have hp : ∀ c ∈ content, (fun c => decide (c ≠ '<')) c = true := by
    intro c hc; simpa using hlt c hc
  have hx : (fun c => decide (c ≠ '<')) '<' = false := by simp
  rw [matchTagAt, openKindAt_append k1 h1]
  simp only
  rw [closeChars k2]
  rw [show ('<' :: '/' :: (k2.toList ++ ['>'])) ++ rest =
    '<' :: ('/' :: (k2.toList ++ ['>']) ++ rest) from rfl]
  rw [takeWhile_all_head _ content '<' ('/' :: (k2.toList ++ ['>']) ++ rest) hp hx]
  rw [dropWhile_all_head _ content '<' ('/' :: (k2.toList ++ ['>']) ++ rest) hp hx]
  have hie : content.isEmpty = false := by
    cases content with
    | nil => exact absurd rfl hne
    | cons a l => rfl
  rw [hie]
  simp only [Bool.false_eq_true, if_false]
  have hc : closeKindAt ('<' :: '/' :: (k2.toList ++ ['>']) ++ rest) = some rest := by
    have := closeKindAt_append k2 h2 rest
    rw [closeChars k2] at this
    simpa using this
  rw [show ('<' :: '/' :: (k2.toList ++ ['>']) ++ rest : List Char) =
    '<' :: ('/' :: (k2.toList ++ ['>']) ++ rest) from rfl] at hc
  rw [hc]

theorem matchTagAt_open_unterminated (k1 : String) (h1 : k1 ∈ tagKinds)
    (content : List Char) (hlt : ∀ c ∈ content, c ≠ '<') :
    matchTagAt (("<" ++ k1 ++ ">").toList ++ content) = none := by
  have hp : ∀ c ∈ content, (fun c => decide (c ≠ '<')) c = true := by
    intro c hc; simpa using hlt c hc
  rw [matchTagAt, openKindAt_append k1 h1]
  simp only
  rw [takeWhile_all _ content hp, dropWhile_all _ content hp]
  split
  · rfl
  · rfl

theorem matchTagAt_open_close (k1 k2 : String) (h1 : k1 ∈ tagKinds) :
    matchTagAt (("<" ++ k1 ++ ">").toList ++ ("</" ++ k2 ++ ">").toList)
      = none := by
  rw [matchTagAt, openKindAt_append k1 h1]
  simp only
  rw [closeChars k2]
  simp [List.takeWhile]

theorem parseChars_context (pre : List Char) (hpre : ∀ c ∈ pre, c ≠ '<')
    (k1 k2 : String) (h1 : k1 ∈ tagKinds) (h2 : k2 ∈ tagKinds)
    (content : List Char) (hne : content ≠ [])
    (hlt : ∀ c ∈ content, c ≠ '<') (rest : List Char) :
    parseChars (pre ++ (("<" ++ k1 ++ ">").toList ++
        (content ++ (("</" ++ k2 ++ ">").toList ++ rest)))) =
      ⟨k1, String.mk (trimChars content)⟩ :: parseChars rest := by
  rw [parseChars_skip pre hpre]
  exact parseChars_matched _ _ _
    (matchTagAt_full_rest k1 k2 h1 h2 content hne hlt rest)

theorem parseChars_unterminated (pre : List Char)
    (hpre : ∀ c ∈ pre, c ≠ '<') (k1 : String) (h1 : k1 ∈ tagKinds)
    (content : List Char) (hlt : ∀ c ∈ content, c ≠ '<') :
    parseChars (pre ++ (("<" ++ k1 ++ ">").toList ++ content)) = [] := by
  rw [parseChars_skip pre hpre]
  have hm := matchTagAt_open_unterminated k1 h1 content hlt
  rw [openChars k1, List.cons_append] at hm ⊢
  rw [parseChars_cons_none _ _ hm]
  refine parseChars_all_ne _ ?_
  intro c hc
  simp only [List.mem_append, List.mem_cons] at hc
  rcases hc with (hc | hc) | hc
  · exact kindChars_ne k1 h1 c hc
  · simp at hc
    subst hc
    decide
  · exact hlt c hc

theorem parseChars_open_close (pre : List Char)
    (hpre : ∀ c ∈ pre, c ≠ '<') (k1 k2 : String)
    (h1 : k1 ∈ tagKinds) (h2 : k2 ∈ tagKinds) :
    parseChars (pre ++ (("<" ++ k1 ++ ">").toList ++
      ("</" ++ k2 ++ ">").toList)) = [] := by
  rw [parseChars_skip pre hpre]
  have hm := matchTagAt_open_close k1 k2 h1
  rw [openChars k1, List.cons_append] at hm ⊢
  rw [parseChars_cons_none _ _ hm]
  rw [parseChars_skip (k1.toList ++ ['>'])
    (by
      intro c hc
      simp only [List.mem_append, List.mem_cons] at hc
      rcases hc with hc | hc
      · exact kindChars_ne k1 h1 c hc
      · simp at hc
        subst hc
        decide)]
  rw [closeChars k2]
  rw [parseChars_cons_none _ _ (matchTagAt_cons_slash _)]
  refine parseChars_all_ne _ ?_
  intro c hc
  simp only [List.mem_cons, List.mem_append] at hc
  rcases hc with hc | (hc | hc)
  · subst hc
    decide
  · exact kindChars_ne k2 h2 c hc
  · simp at hc
    subst hc
    decide

end Util

/-- C2 (amended): for every body text, the extractor matches tags whose
open and close markers are each one of the three recognized kinds, not
necessarily the same kind - in any context whose preceding text contains
no tag opener, and scanning continues on the arbitrary remaining text -
with the open marker's kind reported and the content trimmed; an
opener-free body yields no tags, and a malformed (empty-content) or
unterminated tag is not matched and produces no extracted tag; no input
can produce an error (extraction is a total function). -/
theorem parseXMLTags_any_close_kind
    (pre k1 k2 content post : String)
    (hpre : ∀ c ∈ pre.toList, c ≠ '<')
    (h1 : k1 ∈ Util.tagKinds) (h2 : k2 ∈ Util.tagKinds)
    (hne : content.toList ≠ []) (hlt : ∀ c ∈ content.toList, c ≠ '<') :
    (Util.ParseXMLTags
        (pre ++ "<" ++ k1 ++ ">" ++ content ++ "</" ++ k2 ++ ">" ++ post) =
      ⟨k1, Util.trimStr content⟩ :: Util.ParseXMLTags post)
    ∧ Util.ParseXMLTags pre = []
    ∧ Util.ParseXMLTags (pre ++ "<" ++ k1 ++ ">" ++ content) = []
    ∧ Util.ParseXMLTags (pre ++ "<" ++ k1 ++ ">" ++ "</" ++ k2 ++ ">") = [] := by
  refine ⟨?_, ?_, ?_, ?_⟩
  · have hb : (pre ++ "<" ++ k1 ++ ">" ++ content ++ "</" ++ k2 ++ ">" ++ post).toList =
        pre.toList ++ (("<" ++ k1 ++ ">").toList ++
          (content.toList ++ (("</" ++ k2 ++ ">").toList ++ post.toList))) := by
      simp [Util.toList_append, List.append_assoc]
    rw [Util.parseXMLTags_eq, Util.parseXMLTags_eq, hb]
    exact Util.parseChars_context pre.toList hpre k1 k2 h1 h2
      content.toList hne hlt post.toList
  · rw [Util.parseXMLTags_eq]
    exact Util.parseChars_all_ne _ hpre
  · have hb : (pre ++ "<" ++ k1 ++ ">" ++ content).toList =
        pre.toList ++ (("<" ++ k1 ++ ">").toList ++ content.toList) := by
      simp [Util.toList_append, List.append_assoc]
    rw [Util.parseXMLTags_eq, hb]
    exact Util.parseChars_unterminated pre.toList hpre k1 h1 content.toList hlt
  · have hb : (pre ++ "<" ++ k1 ++ ">" ++ "</" ++ k2 ++ ">").toList =
        pre.toList ++ (("<" ++ k1 ++ ">").toList ++ ("</" ++ k2 ++ ">").toList) := by
      simp [Util.toList_append, List.append_assoc]
    rw [Util.parseXMLTags_eq, hb]
    exact Util.parseChars_open_close pre.toList hpre k1 k2 h1 h2

/-- C2 (witness for the amended theorem): a script tag closed by an asset
close marker inside surrounding text is matched as a script tag and the
scan continues on the following text, while the unterminated variant
yields nothing. -/
theorem parseXMLTags_any_close_kind_witness :
    ((∀ c ∈ "p ".toList, c ≠ '<') ∧ "script" ∈ Util.tagKinds ∧
      "asset" ∈ Util.tagKinds ∧ "y".toList ≠ [] ∧
      ∀ c ∈ "y".toList, c ≠ '<') ∧
    (Util.ParseXMLTags ("p " ++ "<" ++ "script" ++ ">" ++ "y" ++ "</" ++
        "asset" ++ ">" ++ "<reference>r</reference>") =
      ⟨"script", Util.trimStr "y"⟩ ::
        Util.ParseXMLTags "<reference>r</reference>") ∧
    Util.ParseXMLTags ("p " ++ "<" ++ "script" ++ ">" ++ "y") = [] :=
  ⟨⟨by decide, by decide, by decide, by decide, by decide⟩,
    (parseXMLTags_any_close_kind "p " "script" "asset" "y"
      "<reference>r</reference>" (by decide) (by decide) (by decide)
      (by decide) (by decide)).1,
    (parseXMLTags_any_close_kind "p " "script" "asset" "y"
      "<reference>r</reference>" (by decide) (by decide) (by decide)
      (by decide) (by decide)).2.2.1⟩
